import Mathlib

/-!
Verification of `kaggle_update_ethereum.py` (ethereum-dataset-kaggle-updater).

The development shallowly embeds the core of the updater script:

* `merge_datasets` (lines 118-191): the incremental merge of an existing
  historical OHLCV dataset with a freshly fetched window, including the
  30-day retention-window optimisation, `drop_duplicates(subset='Open time')`
  (keep-first), and the final sort by `Open time`.
* `fetch_binance_data` (lines 85-116) and `create_binance_client`
  (lines 28-58): the bounded retry loops around the network calls.
* the timestamp (de)serialisation used at lines 97-103 and 134-187
  (`strftime('%Y-%m-%d %H:%M:%S.%f UTC')` followed by `[:-3]`).
* the orchestration order of `main` (lines 230-282) as an event trace.

Timestamps are epoch milliseconds (`Nat`).  A pandas `DataFrame` row becomes
an `OHLCVRecord`; the ten numeric columns other than the two timestamps do
not influence any of the verified operations, so they are abstracted into a
single `rest` field whose value distinguishes otherwise-equal rows.
-/

namespace EthUpdater

/-- One OHLCV row.  `openTime` is the `Open time` column in epoch
milliseconds (the merge key); `rest` abstracts the remaining columns
(`Open`, `High`, ..., `Ignore`), which the merge carries around untouched. -/
structure OHLCVRecord where
  openTime : Nat
  rest : Nat
deriving DecidableEq, Repr

/-- Key order on records used by `sort_values(by='Open time')`. -/
def keyLE (a b : OHLCVRecord) : Prop := a.openTime ≤ b.openTime

/-- Strict key order; `Pairwise keyLT` is the TimeSeriesDataset invariant
(strictly ascending `open_time`, hence also uniqueness). -/
def keyLT (a b : OHLCVRecord) : Prop := a.openTime < b.openTime

instance : DecidableRel keyLE := fun a b => Nat.decLe a.openTime b.openTime

instance : DecidableRel keyLT := fun a b => Nat.decLt a.openTime b.openTime

instance : IsTotal OHLCVRecord keyLE := ⟨fun a b => Nat.le_total a.openTime b.openTime⟩

instance : IsTrans OHLCVRecord keyLE := ⟨fun _ _ _ => Nat.le_trans⟩

instance : IsAntisymm OHLCVRecord keyLT :=
  ⟨fun _ _ h h' => absurd h' (Nat.lt_asymm h)⟩

/-- `df.sort_values(by='Open time')`: a comparison sort on the key.
(pandas' default quicksort is not stable, so the order of equal-key rows is
unspecified there; every property proved below is insensitive to it.) -/
def sortByOpenTime (l : List OHLCVRecord) : List OHLCVRecord :=
  List.insertionSort keyLE l

/-- Worker for `drop_duplicates(subset='Open time')` (keep='first', the
pandas default): `seen` is the set of keys already emitted. -/
def dropDupsSeen : List Nat → List OHLCVRecord → List OHLCVRecord
  | _, [] => []
  | seen, r :: rs =>
    if r.openTime ∈ seen then dropDupsSeen seen rs
    else r :: dropDupsSeen (r.openTime :: seen) rs

/-- `merged_recent.drop_duplicates(subset='Open time')` — keep the first row
of each `Open time` value, in order of appearance. -/
def drop_duplicates (l : List OHLCVRecord) : List OHLCVRecord :=
  dropDupsSeen [] l

/-- `pd.Timedelta(days=30)` in milliseconds. -/
def RETENTION_MS : Nat := 30 * 24 * 60 * 60 * 1000

/-- `cutoff_date = pd.Timestamp.now(tz='UTC') - pd.Timedelta(days=30)`;
`now` is the current wall-clock epoch-millisecond time. -/
def cutoff_date (now : Nat) : Nat := now - RETENTION_MS

/-- `new_data['Open time'].min()` on a non-empty frame (0 on an empty one;
the script never reaches this line with an empty frame, see
`merge_datasets`). -/
def minOpenTime : List OHLCVRecord → Nat
  | [] => 0
  | r :: rs => rs.foldl (fun m s => min m s.openTime) r.openTime

/-- `filter_date = min(cutoff_date, new_data_start)` (line 161). -/
def filter_date (now : Nat) (incoming : List OHLCVRecord) : Nat :=
  min (cutoff_date now) (minOpenTime incoming)

/-- `existing_recent = existing_data[existing_data['Open time'] >= filter_date]`. -/
def existing_recent (now : Nat) (existing incoming : List OHLCVRecord) : List OHLCVRecord :=
  existing.filter fun r => decide (filter_date now incoming ≤ r.openTime)

/-- `existing_old = existing_data[existing_data['Open time'] < filter_date]`. -/
def existing_old (now : Nat) (existing incoming : List OHLCVRecord) : List OHLCVRecord :=
  existing.filter fun r => decide (r.openTime < filter_date now incoming)

/-- The input of the deduplication pass:
`pd.concat([existing_recent, new_data])` (line 170). -/
def dedup_input (now : Nat) (existing incoming : List OHLCVRecord) : List OHLCVRecord :=
  existing_recent now existing incoming ++ incoming

/-- `merge_datasets` (lines 118-191).  The timestamp-format sniff at lines
128-129 reads `['Open time'].iloc[0]` of both frames, which raises
`IndexError` when either frame is empty — embedded as `none`.  After the
sniff: partition `existing` at `filter_date`, concatenate recent ++ incoming,
`drop_duplicates` on `Open time` (keep first), sort, prepend the old segment
and sort the whole result. -/
def merge_datasets (now : Nat) (existing incoming : List OHLCVRecord) :
    Option (List OHLCVRecord) :=
  if existing.isEmpty || incoming.isEmpty then none
  else
    let mergedRecent := sortByOpenTime (drop_duplicates (dedup_input now existing incoming))
    some (sortByOpenTime (existing_old now existing incoming ++ mergedRecent))

/-- Modelled from the claim (C10): the naive full merge — concatenate all of
`existing` followed by `incoming`, deduplicate by `open_time` keeping the
first occurrence, and sort ascending by `open_time`. -/
def naive_full_merge (existing incoming : List OHLCVRecord) : List OHLCVRecord :=
  sortByOpenTime (drop_duplicates (existing ++ incoming))

/-- Zero-pad the decimal rendering of `n` to width `w`. -/
def pad (w : Nat) (n : Nat) : String :=
  let s := toString n
  String.mk (List.replicate (w - s.length) '0') ++ s

/-- Proleptic-Gregorian civil date `(year, month, day)` from the number of
days since 1970-01-01 (the conversion pandas performs when rendering a UTC
datetime; Howard Hinnant's `civil_from_days`, specialised to non-negative
epochs). -/
def civilFromDays (z : Nat) : Nat × Nat × Nat :=
  let w := z + 719468
  let era := w / 146097
  let doe := w % 146097
  let yoe := (doe - doe / 1460 + doe / 36524 - doe / 146096) / 365
  let y := yoe + era * 400
  let doy := doe - (365 * yoe + yoe / 4 - yoe / 100)
  let mp := (5 * doy + 2) / 153
  let d := doy - (153 * mp + 2) / 5 + 1
  let m := if mp < 10 then mp + 3 else mp - 9
  (if m ≤ 2 then y + 1 else y, m, d)

/-- `strftime('%Y-%m-%d %H:%M:%S.%f UTC')` on the UTC datetime for epoch
millisecond `ms`.  A pandas datetime converted with `unit='ms'` carries
microsecond field `(ms mod 1000) * 1000`, and `%f` renders it with six
digits. -/
def strftime_full (ms : Nat) : String :=
  let days := ms / 86400000
  let msOfDay := ms % 86400000
  let ymd := civilFromDays days
  let hh := msOfDay / 3600000
  let mm := msOfDay % 3600000 / 60000
  let ss := msOfDay % 60000 / 1000
  let micro := ms % 1000 * 1000
  pad 4 ymd.1 ++ "-" ++ pad 2 ymd.2.1 ++ "-" ++ pad 2 ymd.2.2 ++ " " ++
    pad 2 hh ++ ":" ++ pad 2 mm ++ ":" ++ pad 2 ss ++ "." ++ pad 6 micro ++ " UTC"

/-- The script's per-record `Open time` serialisation (lines 186-187, and
the per-record intent of line 102): `strftime('%Y-%m-%d %H:%M:%S.%f UTC')`
followed by `.str[:-3]`, i.e. dropping the last three characters of the
rendered string. -/
def serialize_open_time (ms : Nat) : String :=
  (strftime_full ms).dropRight 3

/-- Modelled from the spec: the canonical textual serialisation
`YYYY-MM-DD HH:MM:SS.mmm UTC` — millisecond precision with an explicit
zone suffix. -/
def canonical_timestamp (ms : Nat) : String :=
  let days := ms / 86400000
  let msOfDay := ms % 86400000
  let ymd := civilFromDays days
  let hh := msOfDay / 3600000
  let mm := msOfDay % 3600000 / 60000
  let ss := msOfDay % 60000 / 1000
  pad 4 ymd.1 ++ "-" ++ pad 2 ymd.2.1 ++ "-" ++ pad 2 ymd.2.2 ++ " " ++
    pad 2 hh ++ ":" ++ pad 2 mm ++ ":" ++ pad 2 ss ++ "." ++ pad 3 (ms % 1000) ++ " UTC"

/-- The retry loop of `fetch_binance_data` (lines 87-116) at attempt
granularity: `body i` is the outcome of the `try` block of attempt `i`
(client creation, `get_historical_klines`, frame construction and save) —
either a produced value or the exception it raises.  `i` is the next
attempt index, the second argument the number of attempts left.  On the
last failing attempt the exception is re-raised; when `range(max_retries)`
is empty the Python function falls through and returns `None`, embedded as
`Except.ok none`. -/
def fetch_loop {E A : Type} (body : Nat → Except E A) : Nat → Nat → Except E (Option A)
  | _, 0 => Except.ok none
  | i, n + 1 =>
    match body i with
    | Except.ok a => Except.ok (some a)
    | Except.error e => if n = 0 then Except.error e else fetch_loop body (i + 1) n

/-- `fetch_binance_data(..., max_retries)` (lines 85-116). -/
def fetch_binance_data {E A : Type} (body : Nat → Except E A) (max_retries : Nat) :
    Except E (Option A) :=
  fetch_loop body 0 max_retries

/-- The outer retry loop of `__main__` (lines 285-298): run `main()` up to
the remaining attempt budget, stopping at the first successful run;
`runs k` tells whether the `k`-th call of `main()` succeeds. -/
def global_main_loop (runs : Nat → Bool) : Nat → Nat → Bool
  | _, 0 => false
  | k, n + 1 => if runs k then true else global_main_loop runs (k + 1) n

/-- `create_binance_client(max_retries)` (lines 28-58): `pings q` is the
outcome of the `q`-th liveness check issued by the process, `p` the index of
the next one to consume, the last argument the client-creation attempts
left.  Returns whether a client was obtained together with the next unused
ping index.  (With the budget exhausted the Python function falls through
and yields no usable client, which the caller's `try` block turns into an
attempt failure, so `false` is faithful there too.) -/
def create_binance_client (pings : Nat → Bool) : Nat → Nat → Bool × Nat
  | p, 0 => (false, p)
  | p, n + 1 =>
    if pings p then (true, p + 1)
    else if n = 0 then (false, p + 1)
    else create_binance_client pings (p + 1) n

/-- `fetch_binance_data` (lines 85-116) refined to liveness-check
granularity: each fetch attempt `i` first runs `create_binance_client()`
with its internal budget of 3 ping attempts (line 89 calls it with the
default `max_retries=3`), and only with a client in hand issues the data
request, whose outcome is `reqs i`. -/
def fetch_ping_loop {A : Type} (pings : Nat → Bool) (reqs : Nat → Except Unit A) :
    Nat → Nat → Nat → Except Unit (Option A)
  | _, _, 0 => Except.ok none
  | i, p, n + 1 =>
    let c := create_binance_client pings p 3
    if c.1 then
      match reqs i with
      | Except.ok a => Except.ok (some a)
      | Except.error e =>
        if n = 0 then Except.error e else fetch_ping_loop pings reqs (i + 1) c.2 n
    else if n = 0 then Except.error () else fetch_ping_loop pings reqs (i + 1) c.2 n

/-- `fetch_binance_data` at liveness-check granularity, started on a fresh
ping stream. -/
def fetch_with_ping {A : Type} (pings : Nat → Bool) (reqs : Nat → Except Unit A)
    (max_retries : Nat) : Except Unit (Option A) :=
  fetch_ping_loop pings reqs 0 0 max_retries

/-- Steps 4-5 of `main` (lines 258-277): the dataset written by
`merge_datasets` into `MERGED_FOLDER` is exactly what `upload_to_kaggle`
publishes; no validation runs in between. -/
def published_dataset (now : Nat) (existing incoming : List OHLCVRecord) :
    Option (List OHLCVRecord) :=
  merge_datasets now existing incoming

/-- Observable steps of one `main()` run (lines 230-282).  `clean 0/1/2` are
`clean_folder` on `DATA_FOLDER`, `NEW_DATA_FOLDER` and `MERGED_FOLDER`. -/
inductive PipelineEvent where
  | clean (folder : Nat)
  | download
  | fetchTF (tf : Nat)
  | mergeTF (tf : Nat)
  | writeMetadata
  | uploadFail
  | uploadOk
deriving DecidableEq, Repr

/-- Whether an event is a `clean_folder` call. -/
def PipelineEvent.isClean : PipelineEvent → Bool
  | .clean _ => true
  | _ => false

/-- Lines 237-239 and 280-282: the three staging folders cleaned in order. -/
def initial_cleans : List PipelineEvent :=
  [.clean 0, .clean 1, .clean 2]

/-- Lines 242-277 up to (not including) the successful upload: download the
Kaggle dataset, fetch and merge the four timeframes, write the metadata
file and fail `n` upload attempts. -/
def work_phase (n : Nat) : List PipelineEvent :=
  PipelineEvent.download ::
    ((List.range 4).map PipelineEvent.fetchTF ++ (List.range 4).map PipelineEvent.mergeTF ++
      [PipelineEvent.writeMetadata] ++ List.replicate n PipelineEvent.uploadFail)

/-- The event trace of one `main()` run in which the upload fails `n` times
before succeeding (the upload loop at lines 271-277 retries until success). -/
def main_trace (n : Nat) : List PipelineEvent :=
  initial_cleans ++ work_phase n ++ [PipelineEvent.uploadOk] ++ initial_cleans

/-! ## Helper lemmas about deduplication -/

theorem dropDupsSeen_sublist (seen : List Nat) (l : List OHLCVRecord) :
    List.Sublist (dropDupsSeen seen l) l := by
  induction l generalizing seen with
  | nil => simp [dropDupsSeen]
  | cons r rs ih =>
    simp only [dropDupsSeen]
    by_cases h : r.openTime ∈ seen
    · rw [if_pos h]
      exact List.Sublist.cons r (ih seen)
    · rw [if_neg h]
      exact List.Sublist.cons₂ r (ih _)

theorem mem_of_mem_dropDupsSeen {seen : List Nat} {l : List OHLCVRecord} {r : OHLCVRecord}
    (h : r ∈ dropDupsSeen seen l) : r ∈ l :=
  (dropDupsSeen_sublist seen l).mem h

theorem key_not_seen_of_mem_dropDupsSeen {seen : List Nat} {l : List OHLCVRecord}
    {r : OHLCVRecord} (h : r ∈ dropDupsSeen seen l) : r.openTime ∉ seen := by
  induction l generalizing seen with
  | nil => simp [dropDupsSeen] at h
  | cons a rs ih =>
    simp only [dropDupsSeen] at h
    by_cases ha : a.openTime ∈ seen
    · rw [if_pos ha] at h
      exact ih h
    · rw [if_neg ha] at h
      rcases List.mem_cons.mp h with rfl | h'
      · exact ha
      · have := ih h'
        exact fun hs => this (List.mem_cons_of_mem _ hs)

theorem dropDupsSeen_keys_nodup (seen : List Nat) (l : List OHLCVRecord) :
    ((dropDupsSeen seen l).map (fun r => r.openTime)).Nodup := by
  induction l generalizing seen with
  | nil => simp [dropDupsSeen]
  | cons a rs ih =>
    simp only [dropDupsSeen]
    by_cases ha : a.openTime ∈ seen
    · rw [if_pos ha]
      exact ih seen
    · rw [if_neg ha]
      refine List.nodup_cons.mpr ⟨?_, ih _⟩
      intro hmem
      rcases List.mem_map.mp hmem with ⟨r, hr, hk⟩
      exact key_not_seen_of_mem_dropDupsSeen hr (hk ▸ List.mem_cons_self _ _)

theorem dropDupsSeen_append (l₁ l₂ : List OHLCVRecord) (seen : List Nat)
    (hnd : (l₁.map (fun r => r.openTime)).Nodup)
    (hdisj : ∀ r ∈ l₁, r.openTime ∉ seen) :
    dropDupsSeen seen (l₁ ++ l₂) =
      l₁ ++ dropDupsSeen ((l₁.map (fun r => r.openTime)).reverse ++ seen) l₂ := by
  induction l₁ generalizing seen with
  | nil => simp
  | cons a t ih =>
    have ha : a.openTime ∉ seen := hdisj a (List.mem_cons_self _ _)
    simp only [List.cons_append, dropDupsSeen, if_neg ha, List.append_eq]
    simp only [List.map_cons, List.nodup_cons] at hnd
    have ht : ∀ r ∈ t, r.openTime ∉ a.openTime :: seen := by
      intro r hr
      intro hmem
      rcases List.mem_cons.mp hmem with he | hs
      · exact hnd.1 (he ▸ List.mem_map_of_mem _ hr)
      · exact hdisj r (List.mem_cons_of_mem _ hr) hs
    rw [ih (a.openTime :: seen) hnd.2 ht]
    simp [List.append_assoc]

theorem dropDupsSeen_congr {l : List OHLCVRecord} {s₁ s₂ : List Nat}
    (h : ∀ r ∈ l, (r.openTime ∈ s₁ ↔ r.openTime ∈ s₂)) :
    dropDupsSeen s₁ l = dropDupsSeen s₂ l := by
  induction l generalizing s₁ s₂ with
  | nil => rfl
  | cons a t ih =>
    have ha := h a (List.mem_cons_self _ _)
    by_cases hm : a.openTime ∈ s₁
    · simp only [dropDupsSeen, if_pos hm, if_pos (ha.mp hm)]
      exact ih fun r hr => h r (List.mem_cons_of_mem _ hr)
    · have hm₂ : a.openTime ∉ s₂ := fun c => hm (ha.mpr c)
      simp only [dropDupsSeen, if_neg hm, if_neg hm₂]
      refine congrArg _ (ih fun r hr => ?_)
      constructor
      · intro hx
        rcases List.mem_cons.mp hx with he | hs
        · exact he ▸ List.mem_cons_self _ _
        · exact List.mem_cons_of_mem _ ((h r (List.mem_cons_of_mem _ hr)).mp hs)
      · intro hx
        rcases List.mem_cons.mp hx with he | hs
        · exact he ▸ List.mem_cons_self _ _
        · exact List.mem_cons_of_mem _ ((h r (List.mem_cons_of_mem _ hr)).mpr hs)

/-! ## Helper lemmas about `minOpenTime`, the partition and the sort -/

theorem foldl_min_le_init (t : List OHLCVRecord) (acc : Nat) :
    t.foldl (fun m s => min m s.openTime) acc ≤ acc := by
  induction t generalizing acc with
  | nil => simp
  | cons a t ih =>
    simp only [List.foldl_cons]
    exact le_trans (ih _) (Nat.min_le_left _ _)

theorem foldl_min_le_mem {t : List OHLCVRecord} {r : OHLCVRecord} (acc : Nat) (h : r ∈ t) :
    t.foldl (fun m s => min m s.openTime) acc ≤ r.openTime := by
  induction t generalizing acc with
  | nil => cases h
  | cons a t ih =>
    simp only [List.foldl_cons]
    rcases List.mem_cons.mp h with rfl | h'
    · exact le_trans (foldl_min_le_init _ _) (Nat.min_le_right _ _)
    · exact ih _ h'

theorem minOpenTime_le {l : List OHLCVRecord} {r : OHLCVRecord} (h : r ∈ l) :
    minOpenTime l ≤ r.openTime := by
  cases l with
  | nil => cases h
  | cons a t =>
    rcases List.mem_cons.mp h with rfl | h'
    · exact foldl_min_le_init _ _
    · exact foldl_min_le_mem _ h'

theorem mem_existing_old_lt {now : Nat} {existing incoming : List OHLCVRecord}
    {r : OHLCVRecord} (h : r ∈ existing_old now existing incoming) :
    r.openTime < filter_date now incoming :=
  of_decide_eq_true (List.mem_filter.mp h).2

theorem mem_existing_recent_le {now : Nat} {existing incoming : List OHLCVRecord}
    {r : OHLCVRecord} (h : r ∈ existing_recent now existing incoming) :
    filter_date now incoming ≤ r.openTime :=
  of_decide_eq_true (List.mem_filter.mp h).2

theorem mem_dedup_input_le {now : Nat} {existing incoming : List OHLCVRecord}
    {r : OHLCVRecord} (h : r ∈ dedup_input now existing incoming) :
    filter_date now incoming ≤ r.openTime := by
  rcases List.mem_append.mp h with h' | h'
  · exact mem_existing_recent_le h'
  · exact le_trans (Nat.min_le_right _ _) (minOpenTime_le h')

theorem sortByOpenTime_perm (l : List OHLCVRecord) :
    List.Perm (sortByOpenTime l) l :=
  List.perm_insertionSort keyLE l

theorem sortByOpenTime_sorted (l : List OHLCVRecord) :
    List.Sorted keyLE (sortByOpenTime l) :=
  List.sorted_insertionSort keyLE l

theorem sorted_lt_of_sorted_le_nodup {l : List OHLCVRecord} (hs : List.Sorted keyLE l)
    (hnd : (l.map (fun r => r.openTime)).Nodup) : List.Pairwise keyLT l := by
  have h1 : l.Pairwise (fun a b : OHLCVRecord => a.openTime ≠ b.openTime) :=
    List.pairwise_map.mp hnd
  exact (List.Pairwise.and hs h1).imp fun h => lt_of_le_of_ne h.1 h.2

/-! ## Structural lemmas about `merge_datasets` -/

theorem merge_datasets_eq {now : Nat} {existing incoming : List OHLCVRecord}
    (h1 : existing ≠ []) (h2 : incoming ≠ []) :
    merge_datasets now existing incoming =
      some (sortByOpenTime (existing_old now existing incoming ++
        sortByOpenTime (drop_duplicates (dedup_input now existing incoming)))) := by
  have e1 : existing.isEmpty = false := by
    cases existing with
    | nil => exact absurd rfl h1
    | cons a t => rfl
  have e2 : incoming.isEmpty = false := by
    cases incoming with
    | nil => exact absurd rfl h2
    | cons a t => rfl
  simp [merge_datasets, e1, e2]

theorem merge_datasets_some_inv {now : Nat} {existing incoming out : List OHLCVRecord}
    (h : merge_datasets now existing incoming = some out) :
    existing ≠ [] ∧ incoming ≠ [] ∧
      out = sortByOpenTime (existing_old now existing incoming ++
        sortByOpenTime (drop_duplicates (dedup_input now existing incoming))) := by
  by_cases h1 : existing = []
  · rw [h1] at h
    simp [merge_datasets] at h
  by_cases h2 : incoming = []
  · rw [h2] at h
    simp [merge_datasets] at h
  refine ⟨h1, h2, ?_⟩
  rw [merge_datasets_eq h1 h2] at h
  injection h with h
  exact h.symm

theorem merge_out_perm {now : Nat} {existing incoming out : List OHLCVRecord}
    (h : merge_datasets now existing incoming = some out) :
    List.Perm out (existing_old now existing incoming ++
      drop_duplicates (dedup_input now existing incoming)) := by
  obtain ⟨-, -, rfl⟩ := merge_datasets_some_inv h
  exact (sortByOpenTime_perm _).trans (List.Perm.append_left _ (sortByOpenTime_perm _))

theorem merge_out_sorted {now : Nat} {existing incoming out : List OHLCVRecord}
    (h : merge_datasets now existing incoming = some out) :
    List.Sorted keyLE out := by
  obtain ⟨-, -, rfl⟩ := merge_datasets_some_inv h
  exact sortByOpenTime_sorted _

theorem merge_keys_nodup {now : Nat} {existing incoming out : List OHLCVRecord}
    (hnd : (existing.map (fun r => r.openTime)).Nodup)
    (h : merge_datasets now existing incoming = some out) :
    (out.map (fun r => r.openTime)).Nodup := by
  have hperm := (merge_out_perm h).map (fun r => r.openTime)
  rw [List.map_append] at hperm
  refine hperm.nodup_iff.mpr (List.nodup_append.mpr ⟨?_, ?_, ?_⟩)
  · exact hnd.sublist ((List.filter_sublist existing).map _)
  · exact dropDupsSeen_keys_nodup [] _
  · intro k hk1 hk2
    rcases List.mem_map.mp hk1 with ⟨r, hr, rfl⟩
    rcases List.mem_map.mp hk2 with ⟨s, hs, he⟩
    have hlt := mem_existing_old_lt hr
    have hge := mem_dedup_input_le (mem_of_mem_dropDupsSeen hs)
    rw [he] at hge
    exact absurd hge (Nat.not_le.mpr hlt)

theorem drop_duplicates_append_left {l₁ l₂ : List OHLCVRecord}
    (hnd : (l₁.map (fun r => r.openTime)).Nodup) :
    drop_duplicates (l₁ ++ l₂) =
      l₁ ++ dropDupsSeen (l₁.map (fun r => r.openTime)).reverse l₂ := by
  have h := dropDupsSeen_append l₁ l₂ [] hnd (by simp)
  simpa using h

theorem filter_key_eq_singleton {l : List OHLCVRecord} {r : OHLCVRecord}
    (hnd : (l.map (fun s => s.openTime)).Nodup) (hr : r ∈ l) :
    l.filter (fun s => decide (s.openTime = r.openTime)) = [r] := by
  induction l with
  | nil => cases hr
  | cons a t ih =>
    simp only [List.map_cons, List.nodup_cons] at hnd
    rcases List.mem_cons.mp hr with rfl | hr'
    · have hnil : t.filter (fun s => decide (s.openTime = r.openTime)) = [] := by
        refine List.filter_eq_nil_iff.mpr fun s hs => ?_
        simp only [decide_eq_true_eq]
        exact fun he => hnd.1 (he ▸ List.mem_map_of_mem _ hs)
      simp [List.filter_cons, hnil]
    · have hne : a.openTime ≠ r.openTime := fun he =>
        hnd.1 (he ▸ List.mem_map_of_mem _ hr')
      simp [List.filter_cons, hne, ih hnd.2 hr']

/-! ## Claim theorems: the merge algorithm (C1-C4) -/

/-- C1: for an existing dataset satisfying the TimeSeriesDataset invariants
and any incoming dataset, every `open_time` key `k` occurring both in the
recent segment of `existing` and in `incoming` is represented in the merged
result by exactly one record, namely the record of the recent (existing)
segment — the incoming record is discarded. -/
theorem merge_dedup_existing_wins (now : Nat) (existing incoming out : List OHLCVRecord)
    (hinv : List.Pairwise keyLT existing) (k : Nat)
    (hk1 : k ∈ (existing_recent now existing incoming).map (fun r => r.openTime))
    (_hk2 : k ∈ incoming.map (fun r => r.openTime))
    (h : merge_datasets now existing incoming = some out) :
    ∃ r ∈ existing_recent now existing incoming, r.openTime = k ∧
      out.filter (fun s => decide (s.openTime = k)) = [r] := by
  have hnd : (existing.map (fun r => r.openTime)).Nodup :=
    List.pairwise_map.mpr (hinv.imp fun hl => Nat.ne_of_lt hl)
  have hndr : ((existing_recent now existing incoming).map (fun r => r.openTime)).Nodup :=
    hnd.sublist ((List.filter_sublist existing).map _)
  obtain ⟨r, hr, hrk⟩ := List.mem_map.mp hk1
  have hdd : r ∈ drop_duplicates (dedup_input now existing incoming) := by
    show r ∈ drop_duplicates (existing_recent now existing incoming ++ incoming)
    rw [drop_duplicates_append_left hndr]
    exact List.mem_append_left _ hr
  have hrout : r ∈ out :=
    (merge_out_perm h).mem_iff.mpr (List.mem_append_right _ hdd)
  refine ⟨r, hr, hrk, ?_⟩
  rw [← hrk]
  exact filter_key_eq_singleton (merge_keys_nodup hnd h) hrout

/-- C1 witness: key 1 occurs in both the recent segment and incoming; the
merged result keeps the existing record `⟨1, 7⟩` once, not incoming's
`⟨1, 9⟩`. -/
theorem merge_dedup_existing_wins_witness :
    ∃ r ∈ existing_recent 0 [(⟨1, 7⟩ : OHLCVRecord)] [⟨1, 9⟩, ⟨2, 0⟩], r.openTime = 1 ∧
      ([(⟨1, 7⟩ : OHLCVRecord), ⟨2, 0⟩]).filter (fun s => decide (s.openTime = 1)) = [r] :=
  merge_dedup_existing_wins 0 [⟨1, 7⟩] [⟨1, 9⟩, ⟨2, 0⟩] [⟨1, 7⟩, ⟨2, 0⟩]
    (by decide) 1 (by decide) (by decide) (by decide)

/-- C2: whenever the existing dataset has unique `open_time` values, any
dataset `merge_datasets` produces satisfies both TimeSeriesDataset
invariants: `open_time` strictly ascends (every earlier record's key is
smaller than every later one's, so in particular adjacent pairs ascend),
and no two records share an `open_time`. -/
theorem merge_preserves_invariants (now : Nat) (existing incoming out : List OHLCVRecord)
    (hnd : (existing.map (fun r => r.openTime)).Nodup)
    (h : merge_datasets now existing incoming = some out) :
    List.Pairwise keyLT out ∧ (out.map (fun r => r.openTime)).Nodup := by
  have hk := merge_keys_nodup hnd h
  exact ⟨sorted_lt_of_sorted_le_nodup (merge_out_sorted h) hk, hk⟩

/-- C2 witness at a concrete input. -/
theorem merge_preserves_invariants_witness :
    List.Pairwise keyLT [(⟨1, 0⟩ : OHLCVRecord), ⟨2, 0⟩] ∧
      (([(⟨1, 0⟩ : OHLCVRecord), ⟨2, 0⟩]).map (fun r => r.openTime)).Nodup :=
  merge_preserves_invariants 0 [⟨1, 0⟩] [⟨2, 0⟩] [⟨1, 0⟩, ⟨2, 0⟩] (by decide) (by decide)

/-- C3: contrary to the spec's Scenario B (`merge(D, empty) = D`),
`merge_datasets` fails on every empty incoming dataset: the
timestamp-format sniff `new_data['Open time'].iloc[0]` (line 129) raises
`IndexError` on an empty frame, embedded here as the `none` result. -/
theorem merge_empty_incoming_fails (now : Nat) (existing : List OHLCVRecord) :
    merge_datasets now existing [] = none := by
  simp [merge_datasets]

/-- C4: no record of the old segment takes part in the deduplication pass,
and the old-segment records of the merged output are exactly (as a
multiset, hence also in count) the old-segment records of the input,
each carried through unmodified. -/
theorem merge_old_segment_frame (now : Nat) (existing incoming out : List OHLCVRecord)
    (h : merge_datasets now existing incoming = some out) :
    (∀ r ∈ existing_old now existing incoming, r ∉ dedup_input now existing incoming) ∧
      List.Perm (out.filter (fun r => decide (r.openTime < filter_date now incoming)))
        (existing_old now existing incoming) := by
  constructor
  · intro r hr hmem
    exact absurd (mem_dedup_input_le hmem) (Nat.not_le.mpr (mem_existing_old_lt hr))
  · have hperm :=
      (merge_out_perm h).filter (fun r => decide (r.openTime < filter_date now incoming))
    rw [List.filter_append] at hperm
    have h1 : (existing_old now existing incoming).filter
        (fun r => decide (r.openTime < filter_date now incoming)) =
        existing_old now existing incoming :=
      List.filter_eq_self.mpr fun r hr => decide_eq_true (mem_existing_old_lt hr)
    have h2 : (drop_duplicates (dedup_input now existing incoming)).filter
        (fun r => decide (r.openTime < filter_date now incoming)) = [] := by
      refine List.filter_eq_nil_iff.mpr fun r hr => ?_
      simp only [decide_eq_true_eq, Nat.not_lt]
      exact mem_dedup_input_le (mem_of_mem_dropDupsSeen hr)
    rw [h1, h2, List.append_nil] at hperm
    exact hperm

/-- C4 witness: with a 30-day cutoff of 100, the old record `⟨50, 1⟩` stays
out of the dedup pass and survives to the output exactly once. -/
theorem merge_old_segment_frame_witness :
    (∀ r ∈ existing_old (RETENTION_MS + 100) [(⟨50, 1⟩ : OHLCVRecord), ⟨200, 2⟩] [⟨150, 3⟩],
        r ∉ dedup_input (RETENTION_MS + 100) [(⟨50, 1⟩ : OHLCVRecord), ⟨200, 2⟩] [⟨150, 3⟩]) ∧
      List.Perm
        (([(⟨50, 1⟩ : OHLCVRecord), ⟨150, 3⟩, ⟨200, 2⟩]).filter
          (fun r => decide (r.openTime < filter_date (RETENTION_MS + 100) [⟨150, 3⟩])))
        (existing_old (RETENTION_MS + 100) [(⟨50, 1⟩ : OHLCVRecord), ⟨200, 2⟩] [⟨150, 3⟩]) :=
  merge_old_segment_frame (RETENTION_MS + 100) [⟨50, 1⟩, ⟨200, 2⟩] [⟨150, 3⟩]
    [⟨50, 1⟩, ⟨150, 3⟩, ⟨200, 2⟩] (by decide)

/-! ## Claim theorems: refinement of the naive full merge (C10) -/

/-- C10 counterexample: with an empty existing dataset (whose `open_time`
values are vacuously unique) and a non-empty incoming dataset, the
retention-window merge fails — the `.iloc[0]` format sniff raises — while
the naive full merge returns the incoming record, so the claimed
record-for-record equivalence does not hold there. -/
theorem merge_refines_naive_cex :
    merge_datasets 0 [] [⟨5, 7⟩] = none ∧
      naive_full_merge [] [(⟨5, 7⟩ : OHLCVRecord)] = [⟨5, 7⟩] :=
  ⟨rfl, rfl⟩

/-- C10 amended: for every wall-clock time `now`, every NON-EMPTY existing
dataset with unique `open_time` values and every non-empty incoming
dataset, the retention-window-optimized merge returns exactly the naive
full merge (concatenate existing then incoming, deduplicate by `open_time`
keeping the first occurrence, sort ascending); in particular the output is
independent of `now` and of the 30-day retention window. -/
theorem merge_refines_naive (now : Nat) (existing incoming : List OHLCVRecord)
    (h1 : existing ≠ []) (h2 : incoming ≠ [])
    (hnd : (existing.map (fun r => r.openTime)).Nodup) :
    merge_datasets now existing incoming = some (naive_full_merge existing incoming) := by
  have hndr : ((existing_recent now existing incoming).map (fun r => r.openTime)).Nodup :=
    hnd.sublist ((List.filter_sublist existing).map _)
  have hmemiff : ∀ r ∈ incoming,
      (r.openTime ∈ (existing.map (fun s => s.openTime)).reverse ↔
        r.openTime ∈ ((existing_recent now existing incoming).map
          (fun s => s.openTime)).reverse) := by
    intro r hr
    rw [List.mem_reverse, List.mem_reverse]
    constructor
    · intro hx
      rcases List.mem_map.mp hx with ⟨s, hs, he⟩
      have hfd : filter_date now incoming ≤ s.openTime := by
        rw [he]
        exact le_trans (Nat.min_le_right _ _) (minOpenTime_le hr)
      exact List.mem_map.mpr ⟨s, List.mem_filter.mpr ⟨hs, decide_eq_true hfd⟩, he⟩
    · intro hx
      rcases List.mem_map.mp hx with ⟨s, hs, he⟩
      exact List.mem_map.mpr ⟨s, (List.mem_filter.mp hs).1, he⟩
  have hnaive : drop_duplicates (existing ++ incoming) =
      existing ++ dropDupsSeen (existing.map (fun s => s.openTime)).reverse incoming :=
    drop_duplicates_append_left hnd
  have hcode : drop_duplicates (dedup_input now existing incoming) =
      existing_recent now existing incoming ++
        dropDupsSeen (existing.map (fun s => s.openTime)).reverse incoming := by
    show drop_duplicates (existing_recent now existing incoming ++ incoming) = _
    rw [drop_duplicates_append_left hndr, dropDupsSeen_congr hmemiff]
  have hrecfilter : existing_recent now existing incoming =
      existing.filter (fun r => !decide (r.openTime < filter_date now incoming)) := by
    refine List.filter_congr fun r _ => ?_
    rw [← decide_not]
    exact decide_eq_decide.mpr (Nat.not_lt).symm
  have hpart : List.Perm
      (existing_old now existing incoming ++ existing_recent now existing incoming)
      existing := by
    rw [hrecfilter]
    exact List.filter_append_perm _ existing
  have hcore : List.Perm
      (existing_old now existing incoming ++
        sortByOpenTime (drop_duplicates (dedup_input now existing incoming)))
      (drop_duplicates (existing ++ incoming)) := by
    rw [hcode, hnaive]
    refine (List.Perm.append_left _ (sortByOpenTime_perm _)).trans ?_
    rw [← List.append_assoc]
    exact List.Perm.append_right _ hpart
  have houtperm : List.Perm
      (sortByOpenTime (existing_old now existing incoming ++
        sortByOpenTime (drop_duplicates (dedup_input now existing incoming))))
      (naive_full_merge existing incoming) := by
    unfold naive_full_merge
    exact (sortByOpenTime_perm _).trans (hcore.trans (sortByOpenTime_perm _).symm)
  have hout : merge_datasets now existing incoming =
      some (sortByOpenTime (existing_old now existing incoming ++
        sortByOpenTime (drop_duplicates (dedup_input now existing incoming)))) :=
    merge_datasets_eq h1 h2
  have hnd1 : ((sortByOpenTime (existing_old now existing incoming ++
      sortByOpenTime (drop_duplicates (dedup_input now existing incoming)))).map
        (fun r => r.openTime)).Nodup :=
    merge_keys_nodup hnd hout
  have hnd2 : ((naive_full_merge existing incoming).map (fun r => r.openTime)).Nodup :=
    (houtperm.map (fun r => r.openTime)).nodup_iff.mp hnd1
  have hlt1 := sorted_lt_of_sorted_le_nodup (sortByOpenTime_sorted _) hnd1
  have hlt2 : List.Pairwise keyLT (naive_full_merge existing incoming) :=
    sorted_lt_of_sorted_le_nodup (sortByOpenTime_sorted _) hnd2
  rw [hout]
  exact congrArg some (List.eq_of_perm_of_sorted houtperm hlt1 hlt2)

/-- C10 amended witness at a concrete input. -/
theorem merge_refines_naive_witness :
    merge_datasets 0 [(⟨1, 0⟩ : OHLCVRecord)] [⟨2, 0⟩] =
      some (naive_full_merge [⟨1, 0⟩] [⟨2, 0⟩]) :=
  merge_refines_naive 0 [⟨1, 0⟩] [⟨2, 0⟩] (by decide) (by decide) (by decide)

/-! ## Claim theorem: timestamp serialisation (C5) -/

/-- C5: the code's `Open time` serialisation does not produce the claimed
canonical `YYYY-MM-DD HH:MM:SS.mmm UTC` form.  The `[:-3]` slice that the
inline comment says removes the last three fractional digits ("Remove last
3 digits for milliseconds") instead removes the three characters `UTC`,
leaving a zone-less microsecond-precision string with a trailing space. -/
theorem serialize_not_canonical :
    serialize_open_time 0 = "1970-01-01 00:00:00.000000 " ∧
      canonical_timestamp 0 = "1970-01-01 00:00:00.000 UTC" ∧
      serialize_open_time 0 ≠ canonical_timestamp 0 := by
  refine ⟨rfl, rfl, ?_⟩
  decide

/-! ## Helper lemmas for the fetch retry loop (C6) -/

theorem fetch_loop_succ {E A : Type} (body : Nat → Except E A) (i n : Nat) :
    fetch_loop body i (n + 1) =
      match body i with
      | Except.ok a => Except.ok (some a)
      | Except.error e => if n = 0 then Except.error e else fetch_loop body (i + 1) n :=
  rfl

theorem fetch_loop_first_success {E A : Type} (body : Nat → Except E A) :
    ∀ (n i k : Nat) (a : A), k < n → body (i + k) = Except.ok a →
      (∀ j, j < k → ∃ e, body (i + j) = Except.error e) →
      fetch_loop body i n = Except.ok (some a) := by
  intro n
  induction n with
  | zero => intro i k a hk; omega
  | succ n ih =>
    intro i k a hk hok hfail
    cases k with
    | zero =>
      rw [Nat.add_zero] at hok
      simp only [fetch_loop_succ, hok]
    | succ k' =>
      obtain ⟨e, he⟩ := hfail 0 (Nat.succ_pos k')
      rw [Nat.add_zero] at he
      simp only [fetch_loop_succ, he]
      have hn : n ≠ 0 := by omega
      rw [if_neg hn]
      refine ih (i + 1) k' a (by omega) ?_ ?_
      · rw [show i + 1 + k' = i + (k' + 1) by omega]
        exact hok
      · intro j hj
        obtain ⟨e', he'⟩ := hfail (j + 1) (by omega)
        exact ⟨e', by rw [show i + 1 + j = i + (j + 1) by omega]; exact he'⟩

theorem fetch_loop_all_fail {E A : Type} (body : Nat → Except E A) :
    ∀ (n i : Nat) (e : E), (∀ k, k < n → ∃ e', body (i + k) = Except.error e') →
      body (i + n - 1) = Except.error e → 0 < n →
      fetch_loop body i n = Except.error e := by
  intro n
  induction n with
  | zero => intro i e _ _ h0; omega
  | succ n ih =>
    intro i e hall hlast _
    obtain ⟨e0, he0⟩ := hall 0 (Nat.succ_pos n)
    rw [Nat.add_zero] at he0
    simp only [fetch_loop_succ, he0]
    by_cases hn : n = 0
    · subst hn
      rw [show i + 1 - 1 = i by omega] at hlast
      have he : e0 = e := by
        have h' := he0.symm.trans hlast
        injection h'
      rw [if_pos rfl, he]
    · rw [if_neg hn]
      refine ih (i + 1) e ?_ ?_ (Nat.pos_of_ne_zero hn)
      · intro k hk
        obtain ⟨e', he'⟩ := hall (k + 1) (by omega)
        exact ⟨e', by rw [show i + 1 + k = i + (k + 1) by omega]; exact he'⟩
      · rw [show i + 1 + n - 1 = i + (n + 1) - 1 by omega]
        exact hlast

theorem fetch_loop_error_inv {E A : Type} (body : Nat → Except E A) :
    ∀ (n i : Nat) (e : E), fetch_loop body i n = Except.error e →
      (∀ k, k < n → ∃ e', body (i + k) = Except.error e') ∧
        body (i + n - 1) = Except.error e := by
  intro n
  induction n with
  | zero =>
    intro i e h
    exact absurd h (by simp [fetch_loop])
  | succ n ih =>
    intro i e h
    rw [fetch_loop_succ] at h
    cases hb : body i with
    | ok a =>
      simp only [hb] at h
      exact absurd h (by simp)
    | error e0 =>
      simp only [hb] at h
      by_cases hn : n = 0
      · subst hn
        rw [if_pos rfl] at h
        have he : e0 = e := by injection h
        constructor
        · intro k hk
          rw [show k = 0 by omega]
          exact ⟨e0, by rw [Nat.add_zero]; exact hb⟩
        · rw [show i + 1 - 1 = i by omega, ← he]
          exact hb
      · rw [if_neg hn] at h
        obtain ⟨hall, hlast⟩ := ih (i + 1) e h
        constructor
        · intro k hk
          cases k with
          | zero => exact ⟨e0, by rw [Nat.add_zero]; exact hb⟩
          | succ k' =>
            obtain ⟨e', he'⟩ := hall k' (by omega)
            exact ⟨e', by rw [show i + (k' + 1) = i + 1 + k' by omega]; exact he'⟩
        · rw [show i + (n + 1) - 1 = i + 1 + n - 1 by omega]
          exact hlast

/-! ## Claim theorem: fetch retry semantics (C6) -/

/-- C6: for `fetch_binance_data` with `max_retries = n > 0`: the first
successful attempt's result is returned and no error raised; if every
attempt fails, the last attempt's exception is re-raised; the fetch raises
if and only if all `n` attempts fail; and a failed `main()` run makes the
outer `__main__` retry loop proceed to the next global attempt. -/
theorem fetch_retry_semantics {E A : Type} (body : Nat → Except E A) (n : Nat)
    (hn : 0 < n) :
    (∀ k a, k < n → body k = Except.ok a →
        (∀ j, j < k → ∃ e, body j = Except.error e) →
        fetch_binance_data body n = Except.ok (some a)) ∧
      (∀ e, (∀ k, k < n → ∃ e', body k = Except.error e') →
        body (n - 1) = Except.error e →
        fetch_binance_data body n = Except.error e) ∧
      ((∃ e, fetch_binance_data body n = Except.error e) ↔
        (∀ k, k < n → ∃ e, body k = Except.error e)) ∧
      (∀ (runs : Nat → Bool) (m : Nat), runs 0 = false →
        global_main_loop runs 0 (m + 1) = global_main_loop runs 1 m) := by
  refine ⟨?_, ?_, ⟨?_, ?_⟩, ?_⟩
  · intro k a hk hok hfail
    refine fetch_loop_first_success body n 0 k a hk ?_ ?_
    · rw [Nat.zero_add]; exact hok
    · intro j hj
      obtain ⟨e, he⟩ := hfail j hj
      exact ⟨e, by rw [Nat.zero_add]; exact he⟩
  · intro e hall hlast
    refine fetch_loop_all_fail body n 0 e ?_ ?_ hn
    · intro k hk
      obtain ⟨e', he'⟩ := hall k hk
      exact ⟨e', by rw [Nat.zero_add]; exact he'⟩
    · rw [Nat.zero_add]; exact hlast
  · rintro ⟨e, he⟩ k hk
    obtain ⟨hall, -⟩ := fetch_loop_error_inv body n 0 e he
    obtain ⟨e', he'⟩ := hall k hk
    exact ⟨e', by rw [Nat.zero_add] at he'; exact he'⟩
  · intro hall
    obtain ⟨e, he⟩ := hall (n - 1) (by omega)
    refine ⟨e, fetch_loop_all_fail body n 0 e ?_ ?_ hn⟩
    · intro k hk
      obtain ⟨e', he'⟩ := hall k hk
      exact ⟨e', by rw [Nat.zero_add]; exact he'⟩
    · rw [Nat.zero_add]; exact he
  · intro runs m h0
    show (if runs 0 = true then true else global_main_loop runs 1 m) = global_main_loop runs 1 m
    rw [h0]
    simp

/-- C6 witness (Scenario C of the spec): with `maxAttempts = 3`, two failed
attempts followed by a successful third one return the successful result. -/
theorem fetch_retry_semantics_witness :
    fetch_binance_data
        (fun k => if k < 2 then Except.error "connection reset" else Except.ok (42 : Nat)) 3 =
      Except.ok (some 42) := by
  refine (fetch_retry_semantics
      (fun k => if k < 2 then Except.error "connection reset" else Except.ok (42 : Nat)) 3
      (by omega)).1 2 42 (by omega) rfl ?_
  intro j hj
  refine ⟨"connection reset", ?_⟩
  have hj2 : j = 0 ∨ j = 1 := by omega
  rcases hj2 with rfl | rfl <;> rfl

/-! ## Claim theorems: liveness checks and the attempt budget (C7) -/

/-- C7 counterexample: the process's very first liveness check fails, yet a
fetch with an attempt budget of just 1 still succeeds —
`create_binance_client` absorbed the ping failure in its own internal
retry, so a single liveness-check failure did not consume a fetch attempt
(under the claim, the only attempt would have been consumed and this fetch
would raise). -/
theorem single_ping_failure_keeps_attempt :
    (fun q => decide (q ≠ 0)) 0 = false ∧
      fetch_with_ping (fun q => decide (q ≠ 0)) (fun _ => Except.ok (42 : Nat)) 1 =
        Except.ok (some 42) :=
  ⟨rfl, rfl⟩

/-- One-step unfolding of `fetch_ping_loop`. -/
theorem fetch_ping_loop_succ {A : Type} (pings : Nat → Bool) (reqs : Nat → Except Unit A)
    (i p n : Nat) :
    fetch_ping_loop pings reqs i p (n + 1) =
      if (create_binance_client pings p 3).1 then
        match reqs i with
        | Except.ok a => Except.ok (some a)
        | Except.error e =>
          if n = 0 then Except.error e
          else fetch_ping_loop pings reqs (i + 1) (create_binance_client pings p 3).2 n
      else if n = 0 then Except.error ()
        else fetch_ping_loop pings reqs (i + 1) (create_binance_client pings p 3).2 n :=
  rfl

theorem create_client_three_pings (pings : Nat → Bool) (p : Nat)
    (h1 : pings p = false) (h2 : pings (p + 1) = false) (h3 : pings (p + 2) = false) :
    create_binance_client pings p 3 = (false, p + 3) := by
  show (if pings p then (true, p + 1)
      else if 2 = 0 then (false, p + 1) else create_binance_client pings (p + 1) 2) =
    (false, p + 3)
  rw [h1]
  show (if pings (p + 1) then (true, p + 1 + 1)
      else if 1 = 0 then (false, p + 1 + 1) else create_binance_client pings (p + 1 + 1) 1) =
    (false, p + 3)
  rw [h2]
  show (if pings (p + 1 + 1) then (true, p + 1 + 1 + 1)
      else if 0 = 0 then (false, p + 1 + 1 + 1)
      else create_binance_client pings (p + 1 + 1 + 1) 0) = (false, p + 3)
  rw [show p + 1 + 1 = p + 2 by omega, h3]
  simp [show p + 2 + 1 = p + 3 by omega]

/-- C7 amended: each fetch attempt runs a fresh `create_binance_client`
whose liveness checks precede any data request.  A single liveness failure
consumes one unit of the client-creation's internal budget of 3, not a
fetch attempt: the attempt still proceeds to its data request once a later
ping succeeds; three consecutive liveness failures consume exactly one
fetch attempt; and when every liveness check fails, the fetch raises
without any data request being consulted. -/
theorem fetch_ping_attempt_semantics {A : Type} (pings : Nat → Bool)
    (reqs : Nat → Except Unit A) (i p n : Nat) :
    (pings p = false → pings (p + 1) = true → ∀ a, reqs i = Except.ok a →
        fetch_ping_loop pings reqs i p (n + 1) = Except.ok (some a)) ∧
      (pings p = false → pings (p + 1) = false → pings (p + 2) = false →
        fetch_ping_loop pings reqs i p (n + 2) =
          fetch_ping_loop pings reqs (i + 1) (p + 3) (n + 1)) ∧
      ((∀ q, pings q = false) →
        fetch_ping_loop pings reqs i p (n + 1) = Except.error ()) := by
  refine ⟨?_, ?_, ?_⟩
  · intro h1 h2 a ha
    have hc : create_binance_client pings p 3 = (true, p + 2) := by
      show (if pings p then (true, p + 1)
          else if 2 = 0 then (false, p + 1) else create_binance_client pings (p + 1) 2) =
        (true, p + 2)
      rw [h1]
      show (if pings (p + 1) then (true, p + 1 + 1)
          else if 1 = 0 then (false, p + 1 + 1)
          else create_binance_client pings (p + 1 + 1) 1) = (true, p + 2)
      rw [h2]
      simp [show p + 1 + 1 = p + 2 by omega]
    rw [fetch_ping_loop_succ, hc]
    simp [ha]
  · intro h1 h2 h3
    have hc := create_client_three_pings pings p h1 h2 h3
    rw [fetch_ping_loop_succ, hc]
    simp
  · intro hall
    induction n generalizing i p with
    | zero =>
      have hc := create_client_three_pings pings p (hall p) (hall (p + 1)) (hall (p + 2))
      rw [fetch_ping_loop_succ, hc]
      simp
    | succ m ih =>
      have hc := create_client_three_pings pings p (hall p) (hall (p + 1)) (hall (p + 2))
      rw [fetch_ping_loop_succ, hc]
      simp only [Prod.fst, Prod.snd, Bool.false_eq_true, if_false, Nat.succ_ne_zero]
      exact ih (i + 1) (p + 3)

/-- C7 amended witness: one failed ping, then a successful one, then the
data request — the single fetch attempt succeeds. -/
theorem fetch_ping_attempt_semantics_witness :
    fetch_ping_loop (fun q => decide (q = 1)) (fun _ => Except.ok (7 : Nat)) 0 0 1 =
      Except.ok (some 7) :=
  (fetch_ping_attempt_semantics (fun q => decide (q = 1))
    (fun _ => Except.ok (7 : Nat)) 0 0 0).1 rfl rfl 7 rfl

/-! ## Claim theorems: publish gating (C8) and cleanup ordering (C9) -/

/-- C8 counterexample: an existing dataset with a duplicated old-segment
key merges without any error into a dataset that violates the uniqueness
invariant, and the pipeline hands exactly that dataset to the publish
step — no `MergeInvariantViolation` detection or abort exists in the
code. -/
theorem invariant_violation_published :
    published_dataset (RETENTION_MS + 100) [⟨0, 1⟩, ⟨0, 2⟩, ⟨200, 3⟩] [⟨200, 4⟩] =
        some [⟨0, 1⟩, ⟨0, 2⟩, ⟨200, 3⟩] ∧
      ¬ (([(⟨0, 1⟩ : OHLCVRecord), ⟨0, 2⟩, ⟨200, 3⟩]).map (fun r => r.openTime)).Nodup := by
  refine ⟨rfl, ?_⟩
  decide

/-- C8 amended: `main` performs no post-merge invariant check — whatever
dataset `merge_datasets` produces is handed unchanged to the publish step,
whether or not it satisfies the TimeSeriesDataset invariants. -/
theorem merge_result_published_unchecked (now : Nat)
    (existing incoming out : List OHLCVRecord)
    (h : merge_datasets now existing incoming = some out) :
    published_dataset now existing incoming = some out := h

/-- C8 amended witness at a concrete input. -/
theorem merge_result_published_unchecked_witness :
    published_dataset 0 [(⟨1, 0⟩ : OHLCVRecord)] [⟨2, 0⟩] = some [⟨1, 0⟩, ⟨2, 0⟩] :=
  merge_result_published_unchecked 0 [⟨1, 0⟩] [⟨2, 0⟩] [⟨1, 0⟩, ⟨2, 0⟩] (by decide)

/-- C9 counterexample: in a run whose upload succeeds immediately, the very
first pipeline step is already a `clean_folder` call (step 1 of `main`,
index 0 of the trace), strictly before the successful upload (index 13) —
cleaning is not confined to after a successful publish. -/
theorem cleanup_before_publish_cex :
    (main_trace 0).findIdx (fun e => e.isClean) = 0 ∧
      (main_trace 0).findIdx (fun e => e == PipelineEvent.uploadOk) = 13 := by
  refine ⟨rfl, ?_⟩
  decide

/-- C9 amended: `main` cleans the three staging folders twice — once at the
start of the run before the download, and once after the successful
upload.  Between the download and the successful upload no clean occurs,
so a staged merge result is never removed before publishing succeeds. -/
theorem cleanup_only_outside_staging (n : Nat) :
    main_trace n =
        initial_cleans ++ work_phase n ++ [PipelineEvent.uploadOk] ++ initial_cleans ∧
      ∀ e ∈ work_phase n, e.isClean = false := by
  refine ⟨rfl, ?_⟩
  intro e he
  cases e with
  | clean f =>
    refine absurd he ?_
    simp [work_phase, List.mem_replicate]
  | download => rfl
  | fetchTF tf => rfl
  | mergeTF tf => rfl
  | writeMetadata => rfl
  | uploadFail => rfl
  | uploadOk => rfl

/-- C9 amended witness: the download step is in the staging phase and is
not a clean. -/
theorem cleanup_only_outside_staging_witness :
    main_trace 0 =
        initial_cleans ++ work_phase 0 ++ [PipelineEvent.uploadOk] ++ initial_cleans ∧
      PipelineEvent.isClean PipelineEvent.download = false :=
  ⟨(cleanup_only_outside_staging 0).1,
    (cleanup_only_outside_staging 0).2 PipelineEvent.download (by decide)⟩

end EthUpdater
